import Mathlib

/-!
Verification of the post-generation hook of the `template-py` cookiecutter
template (`src/hooks/post_gen_project.py`).

The hook operates on the freshly generated project directory.  We model a
filesystem directory as a finite list of named entries, each entry being a
file (with its content) or a subdirectory.  `insertE` writes a binding in
key order, giving a canonical deterministic representation of the unordered
directory map.

The Python operations modelled here:
  * `shutil.copy2(item, dst)` — `copy2At`: if `dst` is an existing
    directory, the file is copied *into* it under its base name (and copying
    onto a directory of that inner name raises `IsADirectoryError`);
    otherwise the file is written at `dst`, overwriting any existing file.
  * `shutil.copytree(item, dst, dirs_exist_ok=True)` — the directory branch
    of `copyInto` / `copytreeAt`: `os.makedirs(dst, exist_ok=True)` raises
    `FileExistsError` when `dst` exists as a file; otherwise every child is
    copied recursively, errors being collected and re-raised at the end
    (the siblings of a failed child are still processed).
  * the `for item in feature_dir.iterdir()` loop of `copy_feature` —
    `copyFeatureItems`: here a raised exception propagates at once, so the
    loop stops at the first failing top-level item.
  * `shutil.rmtree(FEATURES_DIR)` — `rmtreeFeatures`: unguarded, it raises
    when the staging directory is absent.

The boolean results of these functions record "an exception escaped";
`false` means the operation completed silently.  Module-level `debugpy`
scaffolding in the hook is debug plumbing and is not part of the pipeline
modelled here.
-/

mutual

inductive Entry where
  | file (content : String)
  | dir (entries : EntryList)
deriving DecidableEq

inductive EntryList where
  | nil
  | cons (name : String) (e : Entry) (rest : EntryList)
deriving DecidableEq

end

/-- Look up the entry bound to `n` (the first binding, as in a directory). -/
def lookupE : EntryList → String → Option Entry
  | .nil, _ => none
  | .cons m e rest, n => if n = m then some e else lookupE rest n

/-- Write the binding `n ↦ e`: replace the first binding of `n`, or insert
the new binding at its key-ordered position.  This is the canonical-map
model of creating/overwriting a directory entry. -/
def insertE : EntryList → String → Entry → EntryList
  | .nil, n, e => .cons n e .nil
  | .cons m f rest, n, e =>
    if n = m then .cons n e rest
    else if n < m then .cons n e (.cons m f rest)
    else .cons m f (insertE rest n e)

/-- Remove the first binding of `n`, if any. -/
def removeE : EntryList → String → EntryList
  | .nil, _ => .nil
  | .cons m f rest, n => if n = m then rest else .cons m f (removeE rest n)

/-- Does a top-level binding of `n` exist? -/
def namesContains : EntryList → String → Bool
  | .nil, _ => false
  | .cons m _ rest, n => if n = m then true else namesContains rest n

/-- Top-level entry names are pairwise distinct. -/
def nodupTop : EntryList → Bool
  | .nil => true
  | .cons n _ rest => !namesContains rest n && nodupTop rest

/-- Well-formed directory tree: entry names are pairwise distinct at every
level, as they are in a real filesystem directory. -/
def wfL : EntryList → Bool
  | .nil => true
  | .cons n (.file _) rest => !namesContains rest n && wfL rest
  | .cons n (.dir sub) rest => !namesContains rest n && wfL sub && wfL rest

/-- ASCII model of Python `str.upper` (the hook compares the result against
an ASCII literal only). -/
def pyUpper (s : String) : String := ⟨s.data.map Char.toUpper⟩

/-- ASCII model of Python `str.lower`. -/
def pyLower (s : String) : String := ⟨s.data.map Char.toLower⟩

/-- Line 70 of the hook: `"{{ cookiecutter.ff_http }}".upper() == "True"`,
where the argument is the rendered value of the `ff_http` template
variable. -/
def includeHttp (ff_http : String) : Bool := pyUpper ff_http == "True"

/-- Line 71 of the hook: `"{{ cookiecutter.ff_pubsub }}".lower() == "False"`. -/
def includePubsub (ff_pubsub : String) : Bool := pyLower ff_pubsub == "False"

/-- `shutil.copy2(item, PROJECT_ROOT / n)` for a file `item` named `n` with
content `c`.  If the destination is an existing directory the file is
copied into it under its own base name; copying onto a directory of that
inner name raises.  Otherwise the destination file is (over)written. -/
def copy2At (dst : EntryList) (n : String) (c : String) : EntryList × Bool :=
  match lookupE dst n with
  | some (.dir sub) =>
    match lookupE sub n with
    | some (.dir _) => (dst, true)
    | _ => (insertE dst n (.dir (insertE sub n (.file c))), false)
  | _ => (insertE dst n (.file c), false)

/-- `shutil.copytree(src, dst, dirs_exist_ok=True)` (the directory case,
inlined) followed by the iteration over the remaining source entries.
`copyInto src dst` copies every entry of `src` into the directory `dst`;
errors are collected and only reported in the flag, siblings of a failed
entry are still processed — exactly `shutil._copytree`'s error handling. -/
def copyInto : EntryList → EntryList → EntryList × Bool
  | .nil, dst => (dst, false)
  | .cons n (.file c) rest, dst =>
    let r1 := copy2At dst n c
    let r2 := copyInto rest r1.1
    (r2.1, r1.2 || r2.2)
  | .cons n (.dir sub) rest, dst =>
    let r1 :=
      match lookupE dst n with
      | some (.file _) => (dst, true)
      | some (.dir d0) =>
        let r := copyInto sub d0
        (insertE dst n (.dir r.1), r.2)
      | none =>
        let r := copyInto sub .nil
        (insertE dst n (.dir r.1), r.2)
    let r2 := copyInto rest r1.1
    (r2.1, r1.2 || r2.2)

/-- `shutil.copytree(src_dir, dst / n, dirs_exist_ok=True)` as called on a
directory item of the feature loop (this is the match inlined in the
directory case of `copyInto`). -/
def copytreeAt (src : EntryList) (dst : EntryList) (n : String) : EntryList × Bool :=
  match lookupE dst n with
  | some (.file _) => (dst, true)
  | some (.dir d0) =>
    let r := copyInto src d0
    (insertE dst n (.dir r.1), r.2)
  | none =>
    let r := copyInto src .nil
    (insertE dst n (.dir r.1), r.2)

/-- Lines 57–64 of the hook: the `for item in feature_dir.iterdir()` loop,
given the snapshot `items` of the fragment's entries and the project root.
Unlike the collection inside `copytree`, an exception raised here
propagates immediately: the loop aborts at the first failing item. -/
def copyFeatureItems : EntryList → EntryList → EntryList × Bool
  | .nil, root => (root, false)
  | .cons n (.file c) rest, root =>
    let r1 := copy2At root n c
    if r1.2 then (r1.1, true) else copyFeatureItems rest r1.1
  | .cons n (.dir sub) rest, root =>
    let r1 := copytreeAt sub root n
    if r1.2 then (r1.1, true) else copyFeatureItems rest r1.1

/-- Does the staging fragment `_cookie_features/<name>` exist (as any kind
of path)?  This is the `feature_dir.exists()` guard of line 56. -/
def fragmentExists (root : EntryList) (name : String) : Bool :=
  match lookupE root "_cookie_features" with
  | some (.dir feats) => (lookupE feats name).isSome
  | _ => false

/-- Lines 55–64: `copy_feature(name)`.  If `_cookie_features/<name>` does
not exist this is a silent no-op.  If it exists as a file,
`feature_dir.iterdir()` raises `NotADirectoryError` before any write. -/
def copy_feature (root : EntryList) (name : String) : EntryList × Bool :=
  match lookupE root "_cookie_features" with
  | some (.dir feats) =>
    match lookupE feats name with
    | some (.dir items) => copyFeatureItems items root
    | some (.file _) => (root, true)
    | none => (root, false)
  | _ => (root, false)

/-- Lines 42–52: the `Config` class.  The source initialises the class
attributes to `REMOVE_FEATURES_DIR_POST = False` and
`UNPACK_FEATURE_DIRECTORIES = True`; `main` reads them at run time. -/
structure Config where
  REMOVE_FEATURES_DIR_POST : Bool
  UNPACK_FEATURE_DIRECTORIES : Bool
deriving DecidableEq

/-- The attribute values the source assigns to `Config`. -/
def configDefaults : Config :=
  { REMOVE_FEATURES_DIR_POST := false, UNPACK_FEATURE_DIRECTORIES := true }

/-- Line 80: `shutil.rmtree(FEATURES_DIR)`.  Unguarded: it raises
`FileNotFoundError` when the staging directory is absent (and
`NotADirectoryError` when the path is a file). -/
def rmtreeFeatures (root : EntryList) : EntryList × Bool :=
  match lookupE root "_cookie_features" with
  | some (.dir _) => (removeE root "_cookie_features", false)
  | some (.file _) => (root, true)
  | none => (root, true)

/-- Lines 67–81: `main()`.  `ff_http` and `ff_pubsub` are the rendered
template values substituted into the string literals of lines 70–71.  A
raised exception aborts the run (flag `true`); the cleanup conditional of
lines 79–80 only runs after both feature branches completed silently. -/
def mainHook (cfg : Config) (ff_http ff_pubsub : String) (root : EntryList) :
    EntryList × Bool :=
  let r1 := if includeHttp ff_http then copy_feature root "ff_http" else (root, false)
  if r1.2 then (r1.1, true)
  else
    let r2 :=
      if includePubsub ff_pubsub then copy_feature r1.1 "ff_pubsub" else (r1.1, false)
    if r2.2 then (r2.1, true)
    else if cfg.REMOVE_FEATURES_DIR_POST then rmtreeFeatures r2.1 else (r2.1, false)

/-- Observable actions of a run of `main`, in program order. -/
inductive Event where
  | mergeRun (name : String)
  | cleanupCheck
  | cleanupRemove
deriving DecidableEq

/-- The trace of a run of `main`: one `mergeRun` per executed
`copy_feature` call, `cleanupCheck` when control reaches the conditional of
line 79, `cleanupRemove` when the `rmtree` of line 80 executes.  A raised
exception ends the trace where the source propagates it. -/
def mainEvents (cfg : Config) (ff_http ff_pubsub : String) (root : EntryList) :
    List Event :=
  let r1 := if includeHttp ff_http then copy_feature root "ff_http" else (root, false)
  let ev1 := if includeHttp ff_http then [Event.mergeRun "ff_http"] else []
  if r1.2 then ev1
  else
    let r2 :=
      if includePubsub ff_pubsub then copy_feature r1.1 "ff_pubsub" else (r1.1, false)
    let ev2 := if includePubsub ff_pubsub then [Event.mergeRun "ff_pubsub"] else []
    if r2.2 then ev1 ++ ev2
    else
      ev1 ++ ev2 ++ [Event.cleanupCheck] ++
        (if cfg.REMOVE_FEATURES_DIR_POST then [Event.cleanupRemove] else [])

/-- No merge event occurs in the list. -/
def noMergeEvent : List Event → Bool
  | [] => true
  | Event.mergeRun _ :: _ => false
  | _ :: rest => noMergeEvent rest

/-- Every cleanup event is preceded by all merge events: once a cleanup
event has occurred, no further merge occurs. -/
def cleanupAfterMerges : List Event → Bool
  | [] => true
  | Event.mergeRun _ :: rest => cleanupAfterMerges rest
  | Event.cleanupCheck :: rest => noMergeEvent rest
  | Event.cleanupRemove :: rest => noMergeEvent rest

/-- Errors of the generation pipeline, per the spec's error taxonomy. -/
inductive GenError where
  | invalidSelection
  | filesystemError
deriving DecidableEq

/-- Modelled from the spec: the Feature Resolver.  The validation of the
user's feature selection (the enumerated `ff_type` choice variable of the
template configuration, enforced by the cookiecutter driver) is not part of
`src/`; only its downstream consumers (the hook) and its tests are.  Per
§4.1: `"none"` maps to no fragment, a recognized feature maps to its
staging fragment name, and any other value is an `InvalidSelection`
error. -/
def resolve (selection : String) : Except GenError (Option String) :=
  if selection = "none" then .ok none
  else if selection = "http" then .ok (some "ff_http")
  else if selection = "pubsub" then .ok (some "ff_pubsub")
  else .error .invalidSelection

/-- Modelled from the spec: the generation pipeline orchestration of §2/§6
(resolve, then merge the resolved fragment with the hook's merge step, then
conditionally clean up).  The returned tree is the resulting filesystem;
resolution fails before any filesystem mutation. -/
def generate (selection : String) (removeFeaturesDir : Bool) (root : EntryList) :
    EntryList × Option GenError :=
  match resolve selection with
  | .error e => (root, some e)
  | .ok sel =>
    let r1 :=
      match sel with
      | some frag => copy_feature root frag
      | none => (root, false)
    if r1.2 then (r1.1, some .filesystemError)
    else if removeFeaturesDir then
      let r2 := rmtreeFeatures r1.1
      (r2.1, if r2.2 then some .filesystemError else none)
    else (r1.1, none)

/-- The union overlay the spec postulates for `merge` (§4.2, §8.3): the
destination keeps everything it had, every fragment entry is added, and on
a name collision a fragment file replaces the destination file while
directories are merged recursively. -/
def unionTrees : EntryList → EntryList → EntryList
  | .nil, dst => dst
  | .cons n (.file c) rest, dst => unionTrees rest (insertE dst n (.file c))
  | .cons n (.dir sub) rest, dst =>
    let d0 :=
      match lookupE dst n with
      | some (.dir d) => d
      | _ => .nil
    unionTrees rest (insertE dst n (.dir (unionTrees sub d0)))

/-- No fragment entry collides with a destination entry of the other kind
(file against directory), at any level reached by the overlay. -/
def compatible : EntryList → EntryList → Bool
  | .nil, _ => true
  | .cons n (.file _) rest, dst =>
    (match lookupE dst n with
     | some (.dir _) => false
     | _ => true) && compatible rest dst
  | .cons n (.dir sub) rest, dst =>
    (match lookupE dst n with
     | some (.file _) => false
     | some (.dir d0) => compatible sub d0
     | none => true) && compatible rest dst

/-- A small concrete project root: a skeleton file plus the staging
directory holding both fragments, as the template skeleton lays them out. -/
def sampleStaging : EntryList :=
  .cons "ff_http" (.dir (.cons "app.py" (.file "http app") .nil))
    (.cons "ff_pubsub" (.dir (.cons "main.py" (.file "pubsub main") .nil)) .nil)

def sampleRoot : EntryList :=
  .cons "README.md" (.file "readme") (.cons "_cookie_features" (.dir sampleStaging) .nil)

/-- A generated root after its staging directory is gone. -/
def skeletonOnlyRoot : EntryList := .cons "README.md" (.file "readme") .nil

/-- The destination of the spec's union example (§8.3): files `a` and `b`. -/
def exampleDst : EntryList := .cons "a" (.file "A") (.cons "b" (.file "B-old") .nil)

/-- The fragment of the spec's union example (§8.3): files `b` and `c`,
with `b` differing from the destination's `b`. -/
def exampleFrag : EntryList := .cons "b" (.file "B-new") (.cons "c" (.file "C") .nil)

/-! ### Basic properties of the directory-map operations -/

theorem lookupE_insertE_self : ∀ (l : EntryList) (n : String) (e : Entry),
    lookupE (insertE l n e) n = some e
  | .nil, n, e => by simp [insertE, lookupE]
  | .cons m f rest, n, e => by
    by_cases h : n = m
    · simp [insertE, h, lookupE]
    · by_cases h2 : n < m
      · simp [insertE, h, h2, lookupE]
      · simp [insertE, h, h2, lookupE, lookupE_insertE_self rest n e]

theorem lookupE_insertE_ne : ∀ (l : EntryList) (n m : String) (e : Entry),
    m ≠ n → lookupE (insertE l n e) m = lookupE l m
  | .nil, n, m, e, h => by simp [insertE, lookupE, h]
  | .cons k f rest, n, m, e, h => by
    by_cases h1 : n = k
    · subst h1
      simp [insertE, lookupE, h]
    · by_cases h2 : n < k
      · simp [insertE, h1, h2, lookupE, h]
      · simp only [insertE, if_neg h1, if_neg h2, lookupE]
        by_cases h3 : m = k
        · simp [h3]
        · simp [h3, lookupE_insertE_ne rest n m e h]

theorem insertE_insertE_same : ∀ (l : EntryList) (n : String) (e f : Entry),
    insertE (insertE l n e) n f = insertE l n f
  | .nil, n, e, f => by simp [insertE]
  | .cons k g rest, n, e, f => by
    by_cases h1 : n = k
    · subst h1
      simp [insertE]
    · by_cases h2 : n < k
      · simp [insertE, h1, h2]
      · simp [insertE, h1, h2, insertE_insertE_same rest n e f]

theorem insertE_comm : ∀ (l : EntryList) (n m : String) (e f : Entry),
    n ≠ m →
    insertE (insertE l n e) m f = insertE (insertE l m f) n e
  | .nil, n, m, e, f, h => by
    rcases lt_trichotomy n m with h2 | h2 | h2
    · simp [insertE, h, h.symm, h2, not_lt_of_lt h2]
    · exact absurd h2 h
    · simp [insertE, h, h.symm, h2, not_lt_of_lt h2]
  | .cons k g rest, n, m, e, f, h => by
    by_cases hn : n = k
    · subst hn
      rcases lt_trichotomy n m with h2 | h2 | h2
      · simp [insertE, h, h.symm, h2, not_lt_of_lt h2]
      · exact absurd h2 h
      · simp [insertE, h, h.symm, h2, not_lt_of_lt h2]
    · by_cases hm : m = k
      · subst hm
        rcases lt_trichotomy n m with h2 | h2 | h2
        · simp [insertE, h, h.symm, hn, h2, not_lt_of_lt h2]
        · exact absurd h2 h
        · simp [insertE, h, h.symm, hn, h2, not_lt_of_lt h2]
      · rcases lt_trichotomy n k with hk | hk | hk
        · rcases lt_trichotomy m k with hmk | hmk | hmk
          · rcases lt_trichotomy n m with h2 | h2 | h2
            · simp [insertE, h, h.symm, hn, hm, hk, hmk, h2, not_lt_of_lt h2]
            · exact absurd h2 h
            · simp [insertE, h, h.symm, hn, hm, hk, hmk, h2, not_lt_of_lt h2]
          · exact absurd hmk hm
          · have h2 : n < m := lt_trans hk hmk
            simp [insertE, h, h.symm, hn, hm, hk, hmk, h2, not_lt_of_lt h2,
              not_lt_of_lt hmk]
        · exact absurd hk hn
        · rcases lt_trichotomy m k with hmk | hmk | hmk
          · have h2 : m < n := lt_trans hmk hk
            simp [insertE, h, h.symm, hn, hm, hk, hmk, h2, not_lt_of_lt h2,
              not_lt_of_lt hk]
          · exact absurd hmk hm
          · simp [insertE, hn, hm, not_lt_of_lt hk, not_lt_of_lt hmk,
              insertE_comm rest n m e f h]

theorem namesContains_false_lookup : ∀ (l : EntryList) (n : String),
    namesContains l n = false → lookupE l n = none
  | .nil, n, _ => rfl
  | .cons m e rest, n, h => by
    simp only [namesContains] at h
    by_cases h1 : n = m
    · simp [h1] at h
    · simp only [lookupE, if_neg h1]
      exact namesContains_false_lookup rest n (by simpa [h1] using h)

theorem lookupE_removeE_self : ∀ (l : EntryList) (n : String),
    nodupTop l = true → lookupE (removeE l n) n = none
  | .nil, n, _ => rfl
  | .cons m e rest, n, h => by
    simp only [nodupTop, Bool.and_eq_true, Bool.not_eq_true'] at h
    by_cases h1 : n = m
    · subst h1
      simpa [removeE] using namesContains_false_lookup rest n h.1
    · simp only [removeE, if_neg h1, lookupE, if_neg h1]
      exact lookupE_removeE_self rest n h.2

/-! ### Frame properties: each copied item touches only its own binding -/

theorem lookupE_copy2At_ne (dst : EntryList) (n c m : String) (h : m ≠ n) :
    lookupE (copy2At dst n c).1 m = lookupE dst m := by
  rcases hd : lookupE dst n with _ | e
  · simp [copy2At, hd, lookupE_insertE_ne dst n m _ h]
  · rcases e with c2 | sub
    · simp [copy2At, hd, lookupE_insertE_ne dst n m _ h]
    · rcases hs : lookupE sub n with _ | e2
      · simp [copy2At, hd, hs, lookupE_insertE_ne dst n m _ h]
      · rcases e2 with c3 | sub2
        · simp [copy2At, hd, hs, lookupE_insertE_ne dst n m _ h]
        · simp [copy2At, hd, hs]

theorem copy2At_insertE_frame (dst : EntryList) (n c m : String) (w : Entry)
    (h : n ≠ m) :
    copy2At (insertE dst m w) n c =
      (insertE (copy2At dst n c).1 m w, (copy2At dst n c).2) := by
  have hl : lookupE (insertE dst m w) n = lookupE dst n :=
    lookupE_insertE_ne dst m n w h
  rcases hd : lookupE dst n with _ | e
  · simp [copy2At, hl, hd, insertE_comm dst n m _ w h]
  · rcases e with c2 | sub
    · simp [copy2At, hl, hd, insertE_comm dst n m _ w h]
    · rcases hs : lookupE sub n with _ | e2
      · simp [copy2At, hl, hd, hs, insertE_comm dst n m _ w h]
      · rcases e2 with c3 | sub2
        · simp [copy2At, hl, hd, hs, insertE_comm dst n m _ w h]
        · simp [copy2At, hl, hd, hs]

theorem lookupE_copytreeAt_ne (src dst : EntryList) (n m : String) (h : m ≠ n) :
    lookupE (copytreeAt src dst n).1 m = lookupE dst m := by
  rcases hd : lookupE dst n with _ | e
  · simp [copytreeAt, hd, lookupE_insertE_ne dst n m _ h]
  · rcases e with c2 | sub
    · simp [copytreeAt, hd]
    · simp [copytreeAt, hd, lookupE_insertE_ne dst n m _ h]

theorem copytreeAt_insertE_frame (src dst : EntryList) (n m : String) (w : Entry)
    (h : n ≠ m) :
    copytreeAt src (insertE dst m w) n =
      (insertE (copytreeAt src dst n).1 m w, (copytreeAt src dst n).2) := by
  have hl : lookupE (insertE dst m w) n = lookupE dst n :=
    lookupE_insertE_ne dst m n w h
  rcases hd : lookupE dst n with _ | e
  · simp [copytreeAt, hl, hd, insertE_comm dst n m _ w h]
  · rcases e with c2 | sub
    · simp [copytreeAt, hl, hd]
    · simp [copytreeAt, hl, hd, insertE_comm dst n m _ w h]

theorem copyInto_cons_dir (n : String) (sub rest dst : EntryList) :
    copyInto (.cons n (.dir sub) rest) dst =
      ((copyInto rest (copytreeAt sub dst n).1).1,
        (copytreeAt sub dst n).2 || (copyInto rest (copytreeAt sub dst n).1).2) := by
  simp only [copyInto, copytreeAt]

theorem lookupE_copyInto_ne : ∀ (src dst : EntryList) (m : String),
    namesContains src m = false →
    lookupE (copyInto src dst).1 m = lookupE dst m
  | .nil, dst, m, _ => rfl
  | .cons n (.file c) rest, dst, m, h => by
    have hm : ¬ m = n := by
      intro hh
      simp [namesContains, hh] at h
    have hr : namesContains rest m = false := by simpa [namesContains, hm] using h
    simp only [copyInto]
    rw [lookupE_copyInto_ne rest _ m hr, lookupE_copy2At_ne dst n c m hm]
  | .cons n (.dir sub) rest, dst, m, h => by
    have hm : ¬ m = n := by
      intro hh
      simp [namesContains, hh] at h
    have hr : namesContains rest m = false := by simpa [namesContains, hm] using h
    rw [copyInto_cons_dir]
    simp only []
    rw [lookupE_copyInto_ne rest _ m hr, lookupE_copytreeAt_ne sub dst n m hm]

theorem copyInto_insertE_frame : ∀ (src dst : EntryList) (m : String) (w : Entry),
    namesContains src m = false →
    copyInto src (insertE dst m w) =
      (insertE (copyInto src dst).1 m w, (copyInto src dst).2)
  | .nil, dst, m, w, _ => rfl
  | .cons n (.file c) rest, dst, m, w, h => by
    have hm : ¬ m = n := by
      intro hh
      simp [namesContains, hh] at h
    have hr : namesContains rest m = false := by simpa [namesContains, hm] using h
    simp only [copyInto]
    rw [copy2At_insertE_frame dst n c m w (Ne.symm hm)]
    simp only []
    rw [copyInto_insertE_frame rest _ m w hr]
  | .cons n (.dir sub) rest, dst, m, w, h => by
    have hm : ¬ m = n := by
      intro hh
      simp [namesContains, hh] at h
    have hr : namesContains rest m = false := by simpa [namesContains, hm] using h
    rw [copyInto_cons_dir, copyInto_cons_dir]
    rw [copytreeAt_insertE_frame sub dst n m w (Ne.symm hm)]
    simp only []
    rw [copyInto_insertE_frame rest _ m w hr]

theorem lookupE_copyFeatureItems_ne : ∀ (src root : EntryList) (m : String),
    namesContains src m = false →
    lookupE (copyFeatureItems src root).1 m = lookupE root m
  | .nil, root, m, _ => rfl
  | .cons n (.file c) rest, root, m, h => by
    have hm : ¬ m = n := by
      intro hh
      simp [namesContains, hh] at h
    have hr : namesContains rest m = false := by simpa [namesContains, hm] using h
    simp only [copyFeatureItems]
    by_cases he : (copy2At root n c).2
    · simp [he, lookupE_copy2At_ne root n c m hm]
    · simp only [he, if_false, Bool.false_eq_true]
      rw [lookupE_copyFeatureItems_ne rest _ m hr, lookupE_copy2At_ne root n c m hm]
  | .cons n (.dir sub) rest, root, m, h => by
    have hm : ¬ m = n := by
      intro hh
      simp [namesContains, hh] at h
    have hr : namesContains rest m = false := by simpa [namesContains, hm] using h
    simp only [copyFeatureItems]
    by_cases he : (copytreeAt sub root n).2
    · simp [he, lookupE_copytreeAt_ne sub root n m hm]
    · simp only [he, if_false, Bool.false_eq_true]
      rw [lookupE_copyFeatureItems_ne rest _ m hr,
        lookupE_copytreeAt_ne sub root n m hm]

theorem copyFeatureItems_insertE_frame : ∀ (src root : EntryList) (m : String)
    (w : Entry), namesContains src m = false →
    copyFeatureItems src (insertE root m w) =
      (insertE (copyFeatureItems src root).1 m w, (copyFeatureItems src root).2)
  | .nil, root, m, w, _ => rfl
  | .cons n (.file c) rest, root, m, w, h => by
    have hm : ¬ m = n := by
      intro hh
      simp [namesContains, hh] at h
    have hr : namesContains rest m = false := by simpa [namesContains, hm] using h
    simp only [copyFeatureItems]
    rw [copy2At_insertE_frame root n c m w (Ne.symm hm)]
    by_cases he : (copy2At root n c).2
    · simp [he]
    · simp only [he, if_false, Bool.false_eq_true]
      rw [copyFeatureItems_insertE_frame rest _ m w hr]
  | .cons n (.dir sub) rest, root, m, w, h => by
    have hm : ¬ m = n := by
      intro hh
      simp [namesContains, hh] at h
    have hr : namesContains rest m = false := by simpa [namesContains, hm] using h
    simp only [copyFeatureItems]
    rw [copytreeAt_insertE_frame sub root n m w (Ne.symm hm)]
    by_cases he : (copytreeAt sub root n).2
    · simp [he]
    · simp only [he, if_false, Bool.false_eq_true]
      rw [copyFeatureItems_insertE_frame rest _ m w hr]

/-! ### Idempotence of the merge step -/

theorem copyInto_idem : ∀ (src d : EntryList), wfL src = true →
    copyInto src (copyInto src d).1 = copyInto src d
  | .nil, d, _ => rfl
  | .cons n (.file c) rest, d, hw => by
    simp only [wfL, Bool.and_eq_true, Bool.not_eq_true'] at hw
    obtain ⟨hn, hwr⟩ := hw
    rcases hd : lookupE d n with _ | e
    · -- destination has no entry `n`
      have h1 : copy2At d n c = (insertE d n (.file c), false) := by
        simp [copy2At, hd]
      have h2 := copyInto_insertE_frame rest d n (.file c) hn
      have h3 : copy2At (insertE (copyInto rest d).1 n (.file c)) n c =
          (insertE (copyInto rest d).1 n (.file c), false) := by
        simp [copy2At, lookupE_insertE_self, insertE_insertE_same]
      have h4 := copyInto_insertE_frame rest (copyInto rest d).1 n (.file c) hn
      have h5 := copyInto_idem rest d hwr
      simp [copyInto, h1, h2, h3, h4, h5]
    · rcases e with c2 | sub
      · -- destination has a file at `n`: overwrite
        have h1 : copy2At d n c = (insertE d n (.file c), false) := by
          simp [copy2At, hd]
        have h2 := copyInto_insertE_frame rest d n (.file c) hn
        have h3 : copy2At (insertE (copyInto rest d).1 n (.file c)) n c =
            (insertE (copyInto rest d).1 n (.file c), false) := by
          simp [copy2At, lookupE_insertE_self, insertE_insertE_same]
        have h4 := copyInto_insertE_frame rest (copyInto rest d).1 n (.file c) hn
        have h5 := copyInto_idem rest d hwr
        simp [copyInto, h1, h2, h3, h4, h5]
      · -- destination has a directory at `n`: copy2 redirects into it
        rcases hs : lookupE sub n with _ | e2
        · have h1 : copy2At d n c =
              (insertE d n (.dir (insertE sub n (.file c))), false) := by
            simp [copy2At, hd, hs]
          have h2 := copyInto_insertE_frame rest d n (.dir (insertE sub n (.file c))) hn
          have h3 : copy2At
              (insertE (copyInto rest d).1 n (.dir (insertE sub n (.file c)))) n c =
              (insertE (copyInto rest d).1 n (.dir (insertE sub n (.file c))), false) := by
            simp [copy2At, lookupE_insertE_self, insertE_insertE_same]
          have h4 := copyInto_insertE_frame rest (copyInto rest d).1 n
            (.dir (insertE sub n (.file c))) hn
          have h5 := copyInto_idem rest d hwr
          simp [copyInto, h1, h2, h3, h4, h5]
        · rcases e2 with c3 | sub2
          · have h1 : copy2At d n c =
                (insertE d n (.dir (insertE sub n (.file c))), false) := by
              simp [copy2At, hd, hs]
            have h2 := copyInto_insertE_frame rest d n (.dir (insertE sub n (.file c))) hn
            have h3 : copy2At
                (insertE (copyInto rest d).1 n (.dir (insertE sub n (.file c)))) n c =
                (insertE (copyInto rest d).1 n (.dir (insertE sub n (.file c))), false) := by
              simp [copy2At, lookupE_insertE_self, insertE_insertE_same]
            have h4 := copyInto_insertE_frame rest (copyInto rest d).1 n
              (.dir (insertE sub n (.file c))) hn
            have h5 := copyInto_idem rest d hwr
            simp [copyInto, h1, h2, h3, h4, h5]
          · -- inner collision: copy2 raises, destination binding untouched
            have h1 : copy2At d n c = (d, true) := by
              simp [copy2At, hd, hs]
            have h2 : lookupE (copyInto rest d).1 n = lookupE d n :=
              lookupE_copyInto_ne rest d n hn
            have h3 : copy2At (copyInto rest d).1 n c = ((copyInto rest d).1, true) := by
              simp [copy2At, h2, hd, hs]
            have h5 := copyInto_idem rest d hwr
            simp [copyInto, h1, h3, h5]
  | .cons n (.dir sub) rest, d, hw => by
    simp only [wfL, Bool.and_eq_true, Bool.not_eq_true'] at hw
    obtain ⟨⟨hn, hws⟩, hwr⟩ := hw
    rcases hd : lookupE d n with _ | e
    · -- no entry at `n`: fresh directory is created and filled
      have h1 : copytreeAt sub d n =
          (insertE d n (.dir (copyInto sub .nil).1), (copyInto sub .nil).2) := by
        simp [copytreeAt, hd]
      have h2 := copyInto_insertE_frame rest d n (.dir (copyInto sub .nil).1) hn
      have hsub := copyInto_idem sub .nil hws
      have h3 : copytreeAt sub
          (insertE (copyInto rest d).1 n (.dir (copyInto sub .nil).1)) n =
          (insertE (copyInto rest d).1 n (.dir (copyInto sub .nil).1),
            (copyInto sub .nil).2) := by
        simp [copytreeAt, lookupE_insertE_self, hsub, insertE_insertE_same]
      have h4 := copyInto_insertE_frame rest (copyInto rest d).1 n
        (.dir (copyInto sub .nil).1) hn
      have h5 := copyInto_idem rest d hwr
      rw [copyInto_cons_dir, copyInto_cons_dir, h1]
      simp only []
      rw [h2]
      simp only []
      rw [h3]
      simp only []
      rw [h4, h5]
    · rcases e with c2 | sub2
      · -- file in the way: makedirs raises, nothing written there
        have h1 : copytreeAt sub d n = (d, true) := by
          simp [copytreeAt, hd]
        have h2 : lookupE (copyInto rest d).1 n = lookupE d n :=
          lookupE_copyInto_ne rest d n hn
        have h3 : copytreeAt sub (copyInto rest d).1 n = ((copyInto rest d).1, true) := by
          simp [copytreeAt, h2, hd]
        have h5 := copyInto_idem rest d hwr
        rw [copyInto_cons_dir, copyInto_cons_dir, h1]
        simp only []
        rw [h3]
        simp only []
        rw [h5]
      · -- existing directory: recursive merge
        have h1 : copytreeAt sub d n =
            (insertE d n (.dir (copyInto sub sub2).1), (copyInto sub sub2).2) := by
          simp [copytreeAt, hd]
        have h2 := copyInto_insertE_frame rest d n (.dir (copyInto sub sub2).1) hn
        have hsub := copyInto_idem sub sub2 hws
        have h3 : copytreeAt sub
            (insertE (copyInto rest d).1 n (.dir (copyInto sub sub2).1)) n =
            (insertE (copyInto rest d).1 n (.dir (copyInto sub sub2).1),
              (copyInto sub sub2).2) := by
          simp [copytreeAt, lookupE_insertE_self, hsub, insertE_insertE_same]
        have h4 := copyInto_insertE_frame rest (copyInto rest d).1 n
          (.dir (copyInto sub sub2).1) hn
        have h5 := copyInto_idem rest d hwr
        rw [copyInto_cons_dir, copyInto_cons_dir, h1]
        simp only []
        rw [h2]
        simp only []
        rw [h3]
        simp only []
        rw [h4, h5]
theorem copyFeatureItems_idem : ∀ (src root : EntryList), wfL src = true →
    copyFeatureItems src (copyFeatureItems src root).1 = copyFeatureItems src root
  | .nil, root, _ => rfl
  | .cons n (.file c) rest, root, hw => by
    simp only [wfL, Bool.and_eq_true, Bool.not_eq_true'] at hw
    obtain ⟨hn, hwr⟩ := hw
    rcases hd : lookupE root n with _ | e
    · have h1 : copy2At root n c = (insertE root n (.file c), false) := by
        simp [copy2At, hd]
      have h2 := copyFeatureItems_insertE_frame rest root n (.file c) hn
      have h3 : copy2At (insertE (copyFeatureItems rest root).1 n (.file c)) n c =
          (insertE (copyFeatureItems rest root).1 n (.file c), false) := by
        simp [copy2At, lookupE_insertE_self, insertE_insertE_same]
      have h4 := copyFeatureItems_insertE_frame rest (copyFeatureItems rest root).1 n
        (.file c) hn
      have h5 := copyFeatureItems_idem rest root hwr
      simp [copyFeatureItems, h1, h2, h3, h4, h5]
    · rcases e with c2 | sub
      · have h1 : copy2At root n c = (insertE root n (.file c), false) := by
          simp [copy2At, hd]
        have h2 := copyFeatureItems_insertE_frame rest root n (.file c) hn
        have h3 : copy2At (insertE (copyFeatureItems rest root).1 n (.file c)) n c =
            (insertE (copyFeatureItems rest root).1 n (.file c), false) := by
          simp [copy2At, lookupE_insertE_self, insertE_insertE_same]
        have h4 := copyFeatureItems_insertE_frame rest (copyFeatureItems rest root).1 n
          (.file c) hn
        have h5 := copyFeatureItems_idem rest root hwr
        simp [copyFeatureItems, h1, h2, h3, h4, h5]
      · rcases hs : lookupE sub n with _ | e2
        · have h1 : copy2At root n c =
              (insertE root n (.dir (insertE sub n (.file c))), false) := by
            simp [copy2At, hd, hs]
          have h2 := copyFeatureItems_insertE_frame rest root n
            (.dir (insertE sub n (.file c))) hn
          have h3 : copy2At
              (insertE (copyFeatureItems rest root).1 n
                (.dir (insertE sub n (.file c)))) n c =
              (insertE (copyFeatureItems rest root).1 n
                (.dir (insertE sub n (.file c))), false) := by
            simp [copy2At, lookupE_insertE_self, insertE_insertE_same]
          have h4 := copyFeatureItems_insertE_frame rest
            (copyFeatureItems rest root).1 n (.dir (insertE sub n (.file c))) hn
          have h5 := copyFeatureItems_idem rest root hwr
          simp [copyFeatureItems, h1, h2, h3, h4, h5]
        · rcases e2 with c3 | sub2
          · have h1 : copy2At root n c =
                (insertE root n (.dir (insertE sub n (.file c))), false) := by
              simp [copy2At, hd, hs]
            have h2 := copyFeatureItems_insertE_frame rest root n
              (.dir (insertE sub n (.file c))) hn
            have h3 : copy2At
                (insertE (copyFeatureItems rest root).1 n
                  (.dir (insertE sub n (.file c)))) n c =
                (insertE (copyFeatureItems rest root).1 n
                  (.dir (insertE sub n (.file c))), false) := by
              simp [copy2At, lookupE_insertE_self, insertE_insertE_same]
            have h4 := copyFeatureItems_insertE_frame rest
              (copyFeatureItems rest root).1 n (.dir (insertE sub n (.file c))) hn
            have h5 := copyFeatureItems_idem rest root hwr
            simp [copyFeatureItems, h1, h2, h3, h4, h5]
          · -- copy2 raises at once; the loop aborts with the root unchanged
            have h1 : copy2At root n c = (root, true) := by
              simp [copy2At, hd, hs]
            simp [copyFeatureItems, h1]
  | .cons n (.dir sub) rest, root, hw => by
    simp only [wfL, Bool.and_eq_true, Bool.not_eq_true'] at hw
    obtain ⟨⟨hn, hws⟩, hwr⟩ := hw
    rcases hd : lookupE root n with _ | e
    · -- fresh directory created; abort afterwards iff the nested copy errored
      have h1 : copytreeAt sub root n =
          (insertE root n (.dir (copyInto sub .nil).1), (copyInto sub .nil).2) := by
        simp [copytreeAt, hd]
      have hsub := copyInto_idem sub .nil hws
      have h3 : ∀ X : EntryList, copytreeAt sub
          (insertE X n (.dir (copyInto sub .nil).1)) n =
          (insertE X n (.dir (copyInto sub .nil).1), (copyInto sub .nil).2) := by
        intro X
        simp [copytreeAt, lookupE_insertE_self, hsub, insertE_insertE_same]
      by_cases hb : (copyInto sub .nil).2 = true
      · simp [copyFeatureItems, h1, hb, h3 root]
      · simp only [Bool.not_eq_true] at hb
        have h2 := copyFeatureItems_insertE_frame rest root n
          (.dir (copyInto sub .nil).1) hn
        have h4 := copyFeatureItems_insertE_frame rest
          (copyFeatureItems rest root).1 n (.dir (copyInto sub .nil).1) hn
        have h5 := copyFeatureItems_idem rest root hwr
        simp [copyFeatureItems, h1, hb, h2, h3, h4, h5]
    · rcases e with c2 | sub2
      · -- makedirs raises immediately; loop aborts, root unchanged
        have h1 : copytreeAt sub root n = (root, true) := by
          simp [copytreeAt, hd]
        simp [copyFeatureItems, h1]
      · have h1 : copytreeAt sub root n =
            (insertE root n (.dir (copyInto sub sub2).1), (copyInto sub sub2).2) := by
          simp [copytreeAt, hd]
        have hsub := copyInto_idem sub sub2 hws
        have h3 : ∀ X : EntryList, copytreeAt sub
            (insertE X n (.dir (copyInto sub sub2).1)) n =
            (insertE X n (.dir (copyInto sub sub2).1), (copyInto sub sub2).2) := by
          intro X
          simp [copytreeAt, lookupE_insertE_self, hsub, insertE_insertE_same]
        by_cases hb : (copyInto sub sub2).2 = true
        · simp [copyFeatureItems, h1, hb, h3 root]
        · simp only [Bool.not_eq_true] at hb
          have h2 := copyFeatureItems_insertE_frame rest root n
            (.dir (copyInto sub sub2).1) hn
          have h4 := copyFeatureItems_insertE_frame rest
            (copyFeatureItems rest root).1 n (.dir (copyInto sub sub2).1) hn
          have h5 := copyFeatureItems_idem rest root hwr
          simp [copyFeatureItems, h1, hb, h2, h3, h4, h5]

/-! ### The merge as a union overlay, in the absence of kind collisions -/

theorem compatible_nil : ∀ (src : EntryList), compatible src .nil = true
  | .nil => rfl
  | .cons n (.file c) rest => by
    simp [compatible, lookupE, compatible_nil rest]
  | .cons n (.dir sub) rest => by
    simp [compatible, lookupE, compatible_nil rest]

theorem compatible_insertE : ∀ (src dst : EntryList) (n : String) (w : Entry),
    namesContains src n = false →
    compatible src (insertE dst n w) = compatible src dst
  | .nil, _, _, _, _ => rfl
  | .cons m (.file c) rest, dst, n, w, h => by
    have hm : ¬ n = m := by
      intro hh
      simp [namesContains, hh] at h
    have hr : namesContains rest n = false := by simpa [namesContains, hm] using h
    simp only [compatible]
    rw [lookupE_insertE_ne dst n m w (fun hh => hm hh.symm),
      compatible_insertE rest dst n w hr]
  | .cons m (.dir sub) rest, dst, n, w, h => by
    have hm : ¬ n = m := by
      intro hh
      simp [namesContains, hh] at h
    have hr : namesContains rest n = false := by simpa [namesContains, hm] using h
    simp only [compatible]
    rw [lookupE_insertE_ne dst n m w (fun hh => hm hh.symm),
      compatible_insertE rest dst n w hr]

theorem copyInto_union : ∀ (frag dst : EntryList), wfL frag = true →
    compatible frag dst = true →
    copyInto frag dst = (unionTrees frag dst, false)
  | .nil, dst, _, _ => rfl
  | .cons n (.file c) rest, dst, hw, hc => by
    simp only [wfL, Bool.and_eq_true, Bool.not_eq_true'] at hw
    obtain ⟨hn, hwr⟩ := hw
    simp only [compatible, Bool.and_eq_true] at hc
    obtain ⟨hc1, hc2⟩ := hc
    rcases hd : lookupE dst n with _ | e
    · have h1 : copy2At dst n c = (insertE dst n (.file c), false) := by
        simp [copy2At, hd]
      have h2 := copyInto_union rest (insertE dst n (.file c)) hwr
        (by rw [compatible_insertE rest dst n _ hn]; exact hc2)
      simp [copyInto, unionTrees, h1, h2]
    · rcases e with c2 | sub
      · have h1 : copy2At dst n c = (insertE dst n (.file c), false) := by
          simp [copy2At, hd]
        have h2 := copyInto_union rest (insertE dst n (.file c)) hwr
          (by rw [compatible_insertE rest dst n _ hn]; exact hc2)
        simp [copyInto, unionTrees, h1, h2]
      · rw [hd] at hc1
        simp at hc1
  | .cons n (.dir sub) rest, dst, hw, hc => by
    simp only [wfL, Bool.and_eq_true, Bool.not_eq_true'] at hw
    obtain ⟨⟨hn, hws⟩, hwr⟩ := hw
    simp only [compatible, Bool.and_eq_true] at hc
    obtain ⟨hc1, hc2⟩ := hc
    rcases hd : lookupE dst n with _ | e
    · have hsub := copyInto_union sub .nil hws (compatible_nil sub)
      have h1 : copytreeAt sub dst n =
          (insertE dst n (.dir (unionTrees sub .nil)), false) := by
        simp [copytreeAt, hd, hsub]
      have h2 := copyInto_union rest (insertE dst n (.dir (unionTrees sub .nil))) hwr
        (by rw [compatible_insertE rest dst n _ hn]; exact hc2)
      rw [copyInto_cons_dir, h1]
      simp only []
      rw [h2]
      simp [unionTrees, hd]
    · rcases e with c2 | d0
      · rw [hd] at hc1
        simp at hc1
      · rw [hd] at hc1
        have hsub := copyInto_union sub d0 hws hc1
        have h1 : copytreeAt sub dst n =
            (insertE dst n (.dir (unionTrees sub d0)), false) := by
          simp [copytreeAt, hd, hsub]
        have h2 := copyInto_union rest (insertE dst n (.dir (unionTrees sub d0))) hwr
          (by rw [compatible_insertE rest dst n _ hn]; exact hc2)
        rw [copyInto_cons_dir, h1]
        simp only []
        rw [h2]
        simp [unionTrees, hd]

theorem copyFeatureItems_union : ∀ (frag root : EntryList), wfL frag = true →
    compatible frag root = true →
    copyFeatureItems frag root = (unionTrees frag root, false)
  | .nil, root, _, _ => rfl
  | .cons n (.file c) rest, root, hw, hc => by
    simp only [wfL, Bool.and_eq_true, Bool.not_eq_true'] at hw
    obtain ⟨hn, hwr⟩ := hw
    simp only [compatible, Bool.and_eq_true] at hc
    obtain ⟨hc1, hc2⟩ := hc
    rcases hd : lookupE root n with _ | e
    · have h1 : copy2At root n c = (insertE root n (.file c), false) := by
        simp [copy2At, hd]
      have h2 := copyFeatureItems_union rest (insertE root n (.file c)) hwr
        (by rw [compatible_insertE rest root n _ hn]; exact hc2)
      simp [copyFeatureItems, unionTrees, h1, h2]
    · rcases e with c2 | sub
      · have h1 : copy2At root n c = (insertE root n (.file c), false) := by
          simp [copy2At, hd]
        have h2 := copyFeatureItems_union rest (insertE root n (.file c)) hwr
          (by rw [compatible_insertE rest root n _ hn]; exact hc2)
        simp [copyFeatureItems, unionTrees, h1, h2]
      · rw [hd] at hc1
        simp at hc1
  | .cons n (.dir sub) rest, root, hw, hc => by
    simp only [wfL, Bool.and_eq_true, Bool.not_eq_true'] at hw
    obtain ⟨⟨hn, hws⟩, hwr⟩ := hw
    simp only [compatible, Bool.and_eq_true] at hc
    obtain ⟨hc1, hc2⟩ := hc
    rcases hd : lookupE root n with _ | e
    · have hsub := copyInto_union sub .nil hws (compatible_nil sub)
      have h1 : copytreeAt sub root n =
          (insertE root n (.dir (unionTrees sub .nil)), false) := by
        simp [copytreeAt, hd, hsub]
      have h2 := copyFeatureItems_union rest
        (insertE root n (.dir (unionTrees sub .nil))) hwr
        (by rw [compatible_insertE rest root n _ hn]; exact hc2)
      simp only [copyFeatureItems, h1]
      simp only [if_false, Bool.false_eq_true]
      rw [h2]
      simp [unionTrees, hd]
    · rcases e with c2 | d0
      · rw [hd] at hc1
        simp at hc1
      · rw [hd] at hc1
        have hsub := copyInto_union sub d0 hws hc1
        have h1 : copytreeAt sub root n =
            (insertE root n (.dir (unionTrees sub d0)), false) := by
          simp [copytreeAt, hd, hsub]
        have h2 := copyFeatureItems_union rest
          (insertE root n (.dir (unionTrees sub d0))) hwr
          (by rw [compatible_insertE rest root n _ hn]; exact hc2)
        simp only [copyFeatureItems, h1]
        simp only [if_false, Bool.false_eq_true]
        rw [h2]
        simp [unionTrees, hd]

/-! ### The feature-flag comparisons of lines 70–71 -/

theorem toUpper_ne_lowercase_r (c : Char) : Char.toUpper c ≠ 'r' := by
  intro h
  unfold Char.toUpper at h
  simp only [] at h
  by_cases hc : c.toNat ≥ 97 ∧ c.toNat ≤ 122
  · rw [if_pos hc] at h
    obtain ⟨h1, h2⟩ := hc
    have hb1 : 65 ≤ c.toNat - 32 := by omega
    have hb2 : c.toNat - 32 ≤ 90 := by omega
    set n := c.toNat - 32 with hn
    interval_cases n <;> simp_all
  · rw [if_neg hc] at h
    subst h
    exact hc (by decide)

theorem toLower_ne_uppercase_F (c : Char) : Char.toLower c ≠ 'F' := by
  intro h
  unfold Char.toLower at h
  simp only [] at h
  by_cases hc : c.toNat ≥ 65 ∧ c.toNat ≤ 90
  · rw [if_pos hc] at h
    obtain ⟨h1, h2⟩ := hc
    have hb1 : 97 ≤ c.toNat + 32 := by omega
    have hb2 : c.toNat + 32 ≤ 122 := by omega
    set n := c.toNat + 32 with hn
    interval_cases n <;> simp_all
  · rw [if_neg hc] at h
    subst h
    exact hc (by decide)

/-- `s.upper() == "True"` is false for every string: `str.upper` never
produces the lowercase letters of `"True"`. -/
theorem includeHttp_false (s : String) : includeHttp s = false := by
  rw [includeHttp, beq_eq_false_iff_ne]
  intro h
  rw [pyUpper] at h
  rcases s with ⟨l⟩
  have h2 : List.map Char.toUpper l = ['T', 'r', 'u', 'e'] := congrArg String.data h
  rcases l with _ | ⟨a, l⟩
  · simp at h2
  rcases l with _ | ⟨b, l⟩
  · simp at h2
  simp only [List.map, List.cons.injEq] at h2
  exact toUpper_ne_lowercase_r b h2.2.1

/-- `s.lower() == "False"` is false for every string: `str.lower` never
produces the uppercase initial of `"False"`. -/
theorem includePubsub_false (s : String) : includePubsub s = false := by
  rw [includePubsub, beq_eq_false_iff_ne]
  intro h
  rw [pyLower] at h
  rcases s with ⟨l⟩
  have h2 : List.map Char.toLower l = ['F', 'a', 'l', 's', 'e'] := congrArg String.data h
  rcases l with _ | ⟨a, l⟩
  · simp at h2
  simp only [List.map, List.cons.injEq] at h2
  exact toLower_ne_uppercase_F a h2.1

/-! ### Claim theorems -/

/-- C1: for every Feature Selection value outside the recognized set
`{none, http, pubsub}`, the generation pipeline fails with an
`InvalidSelection` error immediately, before any filesystem mutation: the
resulting tree is the untouched input root. -/
theorem unrecognized_selection_fails_before_mutation
    (selection : String) (removeFeaturesDir : Bool) (root : EntryList)
    (h1 : selection ≠ "none") (h2 : selection ≠ "http") (h3 : selection ≠ "pubsub") :
    generate selection removeFeaturesDir root = (root, some GenError.invalidSelection) := by
  simp [generate, resolve, h1, h2, h3]

theorem unrecognized_selection_fails_before_mutation_witness :
    generate "htp" true sampleRoot = (sampleRoot, some GenError.invalidSelection) :=
  unrecognized_selection_fails_before_mutation "htp" true sampleRoot
    (by decide) (by decide) (by decide)

/-- C2: contrary to the claim, selecting the http feature never overlays
the `ff_http` fragment: line 70 compares `s.upper()` against `"True"`,
which contains lowercase letters, so the comparison is false for every
rendered value — in particular for the failing input `"True"`, where the
run leaves the whole project root untouched. -/
theorem http_selection_never_merged :
    (∀ s : String, includeHttp s = false) ∧
    mainHook configDefaults "True" "True" sampleRoot = (sampleRoot, false) := by
  refine ⟨includeHttp_false, ?_⟩
  simp [mainHook, includeHttp_false, includePubsub_false, configDefaults]

/-- C3: contrary to the claim, selecting the pubsub feature never merges
the `ff_pubsub` fragment: line 71 compares `s.lower()` against `"False"`,
which begins with an uppercase letter, so the comparison is false for
every rendered value — at the failing input `ff_pubsub = "True"` the root
is left untouched (the unselected half of the claim does hold). -/
theorem pubsub_selection_never_merged :
    (∀ s : String, includePubsub s = false) ∧
    mainHook configDefaults "False" "True" sampleRoot = (sampleRoot, false) := by
  refine ⟨includePubsub_false, ?_⟩
  simp [mainHook, includeHttp_false, includePubsub_false, configDefaults]

/-- C4: when the staging fragment path does not exist, `copy_feature` is a
silent no-op: the tree is returned unchanged and no error is raised. -/
theorem merge_missing_fragment_noop (root : EntryList) (name : String)
    (h : fragmentExists root name = false) :
    copy_feature root name = (root, false) := by
  rcases hd : lookupE root "_cookie_features" with _ | e
  · simp [copy_feature, hd]
  · rcases e with c | feats
    · simp [copy_feature, hd]
    · rcases hn : lookupE feats name with _ | e2
      · simp [copy_feature, hd, hn]
      · rw [fragmentExists] at h
        rw [hd] at h
        simp [hn] at h

theorem merge_missing_fragment_noop_witness :
    fragmentExists sampleRoot "ff_missing" = false ∧
    copy_feature sampleRoot "ff_missing" = (sampleRoot, false) :=
  ⟨by decide, merge_missing_fragment_noop sampleRoot "ff_missing" (by decide)⟩

/-- C5 counterexample: the union postcondition fails as universally
stated.  A fragment file `b` colliding with a destination *directory* `b`
is not given precedence: `shutil.copy2` copies the file *into* the
directory, so afterwards `b` is still a directory (now containing a file
`b`), not the fragment's file. -/
theorem merge_union_postcondition_counterexample :
    lookupE (copyFeatureItems (.cons "b" (.file "x") .nil)
        (.cons "b" (.dir .nil) .nil)).1 "b" ≠ some (Entry.file "x") ∧
    lookupE (copyFeatureItems (.cons "b" (.file "x") .nil)
        (.cons "b" (.dir .nil) .nil)).1 "b" =
      some (Entry.dir (.cons "b" (Entry.file "x") .nil)) := by
  decide

/-- C5 amended: for a well-formed fragment none of whose entries collides
with a destination entry of the other kind (file vs directory) at any
level, the merge completes without error and the destination becomes
exactly the union of its prior contents and the fragment's contents, the
fragment's version winning same-named file collisions, non-colliding
content preserved, and only the fragment's direct children overlaid. -/
theorem merge_union_postcondition_amended (frag root : EntryList)
    (hw : wfL frag = true) (hc : compatible frag root = true) :
    copyFeatureItems frag root = (unionTrees frag root, false) :=
  copyFeatureItems_union frag root hw hc

theorem merge_union_postcondition_amended_witness :
    wfL exampleFrag = true ∧ compatible exampleFrag exampleDst = true ∧
    copyFeatureItems exampleFrag exampleDst =
      (unionTrees exampleFrag exampleDst, false) :=
  ⟨by decide, by decide,
    merge_union_postcondition_amended exampleFrag exampleDst (by decide) (by decide)⟩

/-- C6: the merge is idempotent: running the feature-copy loop twice with
the same fragment and destination produces the same final tree (and the
same error outcome) as running it once. -/
theorem merge_idempotent (frag dst : EntryList) (hw : wfL frag = true) :
    copyFeatureItems frag (copyFeatureItems frag dst).1 = copyFeatureItems frag dst :=
  copyFeatureItems_idem frag dst hw

theorem merge_idempotent_witness :
    wfL exampleFrag = true ∧
    copyFeatureItems exampleFrag (copyFeatureItems exampleFrag exampleDst).1 =
      copyFeatureItems exampleFrag exampleDst :=
  ⟨by decide, merge_idempotent exampleFrag exampleDst (by decide)⟩

/-- C7: cleanup is gated solely by the retain-staging decision
(`Config.REMOVE_FEATURES_DIR_POST`, the negation of the spec's
Retain-Staging Flag).  With removal off the run leaves the entire root —
in particular the staging directory and every fragment in it — untouched;
with removal on (and the staging directory present) the run ends with the
staging path gone and everything else intact. -/
theorem cleanup_gated_by_retain_flag (u : Bool) (ff1 ff2 : String)
    (root : EntryList) (hnd : nodupTop root = true) :
    mainHook ⟨false, u⟩ ff1 ff2 root = (root, false) ∧
    (∀ feats, lookupE root "_cookie_features" = some (.dir feats) →
      mainHook ⟨true, u⟩ ff1 ff2 root = (removeE root "_cookie_features", false) ∧
      lookupE (mainHook ⟨true, u⟩ ff1 ff2 root).1 "_cookie_features" = none) := by
  have h1 : mainHook ⟨false, u⟩ ff1 ff2 root = (root, false) := by
    simp [mainHook, includeHttp_false, includePubsub_false]
  refine ⟨h1, ?_⟩
  intro feats hf
  have h2 : mainHook ⟨true, u⟩ ff1 ff2 root =
      (removeE root "_cookie_features", false) := by
    simp [mainHook, includeHttp_false, includePubsub_false, rmtreeFeatures, hf]
  refine ⟨h2, ?_⟩
  rw [h2]
  exact lookupE_removeE_self root _ hnd

theorem cleanup_gated_by_retain_flag_witness :
    nodupTop sampleRoot = true ∧
    mainHook ⟨false, true⟩ "True" "none" sampleRoot = (sampleRoot, false) ∧
    mainHook ⟨true, true⟩ "True" "none" sampleRoot =
      (removeE sampleRoot "_cookie_features", false) :=
  ⟨by decide,
    (cleanup_gated_by_retain_flag true "True" "none" sampleRoot (by decide)).1,
    ((cleanup_gated_by_retain_flag true "True" "none" sampleRoot (by decide)).2
      sampleStaging (by decide)).1⟩

/-- C8: in every run of the pipeline the cleanup conditional of line 79
executes exactly once, and only after all fragment merges: no merge event
follows a cleanup event in the run's trace. -/
theorem cleanup_conditional_once_after_merges (cfg : Config) (ff1 ff2 : String)
    (root : EntryList) :
    (mainEvents cfg ff1 ff2 root).count Event.cleanupCheck = 1 ∧
    cleanupAfterMerges (mainEvents cfg ff1 ff2 root) = true := by
  have he : mainEvents cfg ff1 ff2 root =
      Event.cleanupCheck ::
        (if cfg.REMOVE_FEATURES_DIR_POST then [Event.cleanupRemove] else []) := by
    simp [mainEvents, includeHttp_false, includePubsub_false]
  rw [he]
  by_cases hr : cfg.REMOVE_FEATURES_DIR_POST <;>
    simp [hr, cleanupAfterMerges, noMergeEvent]

/-- C9: the `UNPACK_FEATURE_DIRECTORIES` flag is dead configuration: no
code path reads it, so for every input state the run produces the
identical result whichever value it holds. -/
theorem unpack_flag_has_no_effect (r u1 u2 : Bool) (ff1 ff2 : String)
    (root : EntryList) :
    mainHook ⟨r, u1⟩ ff1 ff2 root = mainHook ⟨r, u2⟩ ff1 ff2 root := rfl

/-- C10: with removal enabled and no staging directory present, the
unguarded `shutil.rmtree` raises (`FileNotFoundError`) instead of treating
the missing directory as a no-op: the run ends in error with the tree
unchanged. -/
theorem cleanup_missing_staging_raises (u : Bool) (ff1 ff2 : String)
    (root : EntryList) (h : lookupE root "_cookie_features" = none) :
    mainHook ⟨true, u⟩ ff1 ff2 root = (root, true) := by
  simp [mainHook, includeHttp_false, includePubsub_false, rmtreeFeatures, h]

theorem cleanup_missing_staging_raises_witness :
    lookupE skeletonOnlyRoot "_cookie_features" = none ∧
    mainHook ⟨true, true⟩ "none" "none" skeletonOnlyRoot = (skeletonOnlyRoot, true) :=
  ⟨by decide,
    cleanup_missing_staging_raises true "none" "none" skeletonOnlyRoot (by decide)⟩
